import Mathlib

/-!
Shallow embedding of the include-path estimator
(estimateincludepaths.py and pdsccoverage.py) and proofs about its
resolution, aggregation and classification functions.

Paths are the POSIX-style strings the Python code manipulates; the part
of the filesystem visible to os.scandir is modelled by FileSys, the list
of directories that exist on disk.  Fallible operations (os.scandir on a
missing directory, division by zero) return Except values whose error
strings name the Python exception the corresponding call raises.
-/

/-- Models separator(): the standard POSIX path separator. -/
def separator : String := "/"

/-- Models the Python tokenization s.split("/") used throughout the estimator.
Stated over the character list so that it reduces inside the kernel; the
theorem splitPath_eq_split identifies it with String.split. -/
def splitPath (s : String) : List String :=
  (List.splitOnP (fun c => c = '/') s.data).map String.mk

theorem splitPath_eq_split (s : String) : splitPath s = s.split (fun c => c = '/') :=
  (String.split_of_valid s _).symm

/-- Models separator().join(tokens). -/
def joinPath (tokens : List String) : String := String.intercalate separator tokens

/-- Python list slice l[idx:] for an index that may be negative. -/
def pySliceFrom (l : List α) (idx : Int) : List α :=
  if 0 ≤ idx then l.drop idx.toNat
  else l.drop (l.length - min idx.natAbs l.length)

/-- Python list slice l[:idx] for an index that may be negative. -/
def pySliceTo (l : List α) (idx : Int) : List α :=
  if 0 ≤ idx then l.take idx.toNat
  else l.take (l.length - min idx.natAbs l.length)

/-- Python substring containment test pat in s: the pattern's characters
occur contiguously inside s. -/
def pyInStr (pat s : String) : Bool := decide (pat.data <:+: s.data)

/-- Python sorted(l) on strings: lexicographic (code-point) order. -/
def pySort (l : List String) : List String := l.mergeSort (fun a b => decide (a ≤ b))

/-- Python sorted(set(l)): duplicates removed, then sorted. -/
def pySortedSet (l : List String) : List String := pySort l.dedup

/-- Value stored in a record's include_paths list: Python None, a path
string, or (only ever tested for membership, never stored) a list of paths. -/
inductive PathElem where
  | pnone : PathElem
  | pstr : String → PathElem
  | plist : List String → PathElem
deriving DecidableEq, Repr

/-- True for a path-string element. -/
def PathElem.isStr : PathElem → Bool
  | .pstr _ => true
  | _ => false

/-- Per-header record built by include_paths_for_include: the candidate
include paths and the accumulated type tags. -/
structure ResolutionRecord where
  include_paths : List PathElem
  path_types : List String
deriving DecidableEq, Repr

/-- The database dictionary threaded through the record functions, as an
insertion-ordered association list keyed by header path. -/
abbrev DB := List (String × ResolutionRecord)

/-- Update the value stored under key k of an association list, leaving all
other keys unchanged (Python dict item mutation). -/
def alUpdate (l : List (String × β)) (k : String) (f : β → β) : List (String × β) :=
  l.map (fun e => if e.1 = k then (k, f e.2) else e)

/-- The directories that exist on disk, in the order the OS enumerates them. -/
structure FileSys where
  dirs : List String
deriving Repr

/-- True when d is an immediate subdirectory of base (one extra path segment). -/
def isImmediateSubdir (base d : String) : Bool :=
  ((splitPath d).length == (splitPath base).length + 1) &&
    ((splitPath d).take (splitPath base).length == splitPath base)

/-- Models os.scandir(base) filtered by is_dir(): the immediate
subdirectories of base, or the FileNotFoundError Python raises when base
itself is not on disk. -/
def scandirDirs (fs : FileSys) (base : String) : Except String (List String) :=
  if base ∈ fs.dirs then .ok (fs.dirs.filter (fun d => isImmediateSubdir base d))
  else .error "FileNotFoundError"

/-- Models up_level_references_folders: keep the scanned subfolders of
include_path_candidate whose segment count lies strictly above
origin_path_length = len(header_tokens) - 1 and at most
origin_path_length + up_reference_count, skipping duplicates. -/
def up_level_references_folders (fs : FileSys) (include_path_candidate : String)
    (up_reference_count : Nat) (header_tokens : List String) :
    Except String (List String) := do
  let subfolders ← scandirDirs fs include_path_candidate
  pure <| subfolders.foldl
    (fun ambiguous_paths path =>
      let path_tokens := splitPath path
      let origin_path_length := header_tokens.length - 1
      if origin_path_length < path_tokens.length ∧
          path_tokens.length ≤ origin_path_length + up_reference_count then
        if path ∉ ambiguous_paths then ambiguous_paths ++ [path] else ambiguous_paths
      else ambiguous_paths)
    []

/-- Models record_header: create the header entry when missing and, because
the "path_notes" key tested by the source is never written anywhere, reset
path_types to the empty list. -/
def record_header (database : DB) (header : String) : DB :=
  let database :=
    if (database.lookup header).isNone then
      database ++ [(header, { include_paths := [], path_types := [] })]
    else database
  alUpdate database header (fun r => { r with path_types := [] })

/-- Models record_ambiguous_paths: an empty candidate set records None and the
"non_existing" tag; a non-empty one replaces include_paths with the candidate
set and records the "ambiguous" tag (the source first tests whether the
candidate list itself is an element of include_paths, which only ever holds
for a stored list element). -/
def record_ambiguous_paths (database : DB) (ambiguous_paths : List String)
    (header : String) : DB :=
  if ambiguous_paths = [] then
    alUpdate database header (fun r =>
      { include_paths := r.include_paths ++ [.pnone]
        path_types :=
          if "non_existing" ∈ r.path_types then r.path_types
          else r.path_types ++ ["non_existing"] })
  else
    alUpdate database header (fun r =>
      if PathElem.plist ambiguous_paths ∈ r.include_paths then r
      else
        { include_paths := ambiguous_paths.map .pstr
          path_types :=
            if "ambiguous" ∈ r.path_types then r.path_types
            else r.path_types ++ ["ambiguous"] })

/-- Models record_optional_paths: record the candidate with the "optional" tag
unless the candidate is already present. -/
def record_optional_paths (database : DB) (include_path_candidate : String)
    (header : String) : DB :=
  alUpdate database header (fun r =>
    if PathElem.pstr include_path_candidate ∈ r.include_paths then r
    else
      { include_paths := r.include_paths ++ [.pstr include_path_candidate]
        path_types :=
          if "optional" ∈ r.path_types then r.path_types
          else r.path_types ++ ["optional"] })

/-- Models record_mandatory_paths: record the candidate with the "mandatory"
tag unless the candidate is already present. -/
def record_mandatory_paths (database : DB) (include_path_candidate : String)
    (header : String) : DB :=
  alUpdate database header (fun r =>
    if PathElem.pstr include_path_candidate ∈ r.include_paths then r
    else
      { include_paths := r.include_paths ++ [.pstr include_path_candidate]
        path_types :=
          if "mandatory" ∈ r.path_types then r.path_types
          else r.path_types ++ ["mandatory"] })

/-- Loop body of include_paths_for_include for a single header file. -/
def include_paths_step (fs : FileSys) (source_tokens include_tokens : List String)
    (up_reference_count : Nat) (database : DB) (header_file : String) :
    Except String DB :=
  let header_tokens := splitPath header_file
  if pySliceFrom header_tokens ((up_reference_count : Int) - include_tokens.length) =
      include_tokens.drop up_reference_count then
    let include_path_candidate :=
      joinPath (pySliceTo header_tokens ((up_reference_count : Int) - include_tokens.length))
    let database := record_header database header_file
    if 0 < up_reference_count then do
      let ambiguous_paths ←
        up_level_references_folders fs include_path_candidate up_reference_count header_tokens
      pure (record_ambiguous_paths database ambiguous_paths header_file)
    else
      if ¬ pySliceTo header_tokens (-1) = pySliceTo source_tokens (-1) then
        pure (record_mandatory_paths database include_path_candidate header_file)
      else
        pure (record_optional_paths database include_path_candidate header_file)
  else
    pure database

/-- Models include_paths_for_include: estimate include paths for a single
include of a source file over the whole header inventory. -/
def include_paths_for_include (fs : FileSys) (source inc : String)
    (headers : List String) : Except String DB :=
  let source_tokens := splitPath source
  let include_tokens := splitPath inc
  let up_reference_count := include_tokens.count ".."
  headers.foldlM (include_paths_step fs source_tokens include_tokens up_reference_count) []

/-- Models internal_includes: the includes that can be mapped (by the trailing
segment test, after dropping the up-references) to a file of the tree. -/
def internal_includes (include_list file_list : List String) : List String :=
  pySortedSet <| include_list.foldl
    (fun internal_include_list inc =>
      let include_tokens := splitPath inc
      let up_reference_count := include_tokens.count ".."
      file_list.foldl
        (fun acc file =>
          let file_tokens := splitPath file
          if pySliceFrom file_tokens ((up_reference_count : Int) - include_tokens.length) =
              include_tokens.drop up_reference_count then
            acc ++ [inc]
          else acc)
        internal_include_list)
    []

/-- Models external_includes: the set difference of the include list and the
internal include list, sorted. -/
def external_includes (include_list internal_include_list : List String) : List String :=
  pySortedSet (include_list.filter (fun inc => inc ∉ internal_include_list))

/-- Models get_include_types: the first entry path_types[0] of a record
(Python raises IndexError on an empty list, which never occurs for
resolver-produced records; the model then yields ""). -/
def get_include_types (record : ResolutionRecord) : String :=
  record.path_types.headD ""

/-- Append of a tag unless already present (the pattern shared by the record
functions and assign_types). -/
def addTag (types : List String) (t : String) : List String :=
  if t ∈ types then types else types ++ [t]

/-- Models assign_types: merge one candidate path of one record into the
summarized paths report, skipping records whose first type contains the
substring "non_existing".  A Python None (or list) key is never inserted by
resolver-produced records, because their sole tag is then "non_existing"; the
model leaves the report unchanged on that unreachable branch. -/
def assign_types (paths : List (String × List String)) (record : ResolutionRecord)
    (path : PathElem) : List (String × List String) :=
  let path_type := get_include_types record
  if pyInStr "non_existing" path_type then paths
  else
    match path with
    | .pstr p =>
      let paths := if (paths.lookup p).isNone then paths ++ [(p, [])] else paths
      alUpdate paths p (fun types => addTag types path_type)
    | _ => paths

/-- Models paths_report: fold every record of the database (in the order the
nested source, include, header iteration visits them) into one path-to-types
mapping for the whole tree. -/
def paths_report (records : List ResolutionRecord) : List (String × List String) :=
  records.foldl
    (fun paths record =>
      record.include_paths.foldl (fun paths path => assign_types paths record path) paths)
    []

/-- Final three-bucket report of path_types_report. -/
structure BucketedReport where
  mandatory : List String
  optional : List String
  ambiguous : List String
deriving DecidableEq, Repr

/-- Models path_types_report: bucket every path of the summarized report by
its accumulated types (appending in iteration order, then sorting each
bucket). -/
def path_types_report (paths : List (String × List String)) : BucketedReport :=
  let report_mandatory := (paths.filter (fun e => "mandatory" ∈ e.2)).map Prod.fst
  let report_optional :=
    (paths.filter (fun e => "optional" ∈ e.2 ∧ "mandatory" ∉ e.2)).map Prod.fst
  let report_ambiguous :=
    (paths.filter (fun e => "ambiguous" ∈ e.2 ∧ "mandatory" ∉ e.2)).map Prod.fst
  { mandatory := pySort report_mandatory
    optional := pySort report_optional
    ambiguous := pySort report_ambiguous }

/-- Python division a / b, raising ZeroDivisionError on a zero denominator. -/
def pyDiv (a b : ℚ) : Except String ℚ :=
  if b = 0 then .error "ZeroDivisionError" else .ok (a / b)

/-- Models the statement visibility_quotient = visible_count / headers_count * 100
of pdsc_coverage. -/
def visibility_quotient (visible_count headers_count : Nat) : Except String ℚ := do
  let q ← pyDiv visible_count headers_count
  pure (q * 100)

/-- Models the statement sources_visibility_quotient =
pdsc_sources_count / sources_count * 100 of pdsc_coverage. -/
def sources_visibility_quotient (pdsc_sources_count sources_count : Nat) :
    Except String ℚ := do
  let q ← pyDiv pdsc_sources_count sources_count
  pure (q * 100)

/-- Stated from the spec wording of claim C2: the immediate AND nested
subdirectories of base whose segment count lies in the open-closed depth
range (origin, origin + up]. -/
def spec_subdirs_in_depth_range (fs : FileSys) (base : String) (origin up : Nat) :
    List String :=
  fs.dirs.filter (fun d =>
    ((splitPath d).take (splitPath base).length == splitPath base) &&
      ((splitPath base).length < (splitPath d).length) &&
      (origin < (splitPath d).length) && ((splitPath d).length ≤ origin + up))

/-- Keys of an association list, in order. -/
def alKeys (l : List (String × β)) : List String := l.map Prod.fst

theorem splitPath_ne_nil (s : String) : splitPath s ≠ [] := by
  unfold splitPath
  intro h
  rw [List.map_eq_nil_iff] at h
  exact List.splitOnP_ne_nil _ _ h

theorem pySliceFrom_zero (l : List α) : pySliceFrom l 0 = l := by
  simp [pySliceFrom]

theorem pySliceFrom_neg (l : List α) (k : Nat) (hk : 0 < k) :
    pySliceFrom l (-(k : Int)) = l.drop (l.length - k) := by
  unfold pySliceFrom
  rw [if_neg (by omega)]
  congr 1
  have : (-(k : Int)).natAbs = k := by omega
  omega

theorem pySliceTo_neg (l : List α) (k : Nat) (hk : 0 < k) :
    pySliceTo l (-(k : Int)) = l.take (l.length - k) := by
  unfold pySliceTo
  rw [if_neg (by omega)]
  congr 1
  have : (-(k : Int)).natAbs = k := by omega
  omega

theorem pySliceTo_neg_one (l : List α) : pySliceTo l (-1) = l.dropLast := by
  rw [List.dropLast_eq_take]
  unfold pySliceTo
  rw [if_neg (by omega)]
  congr 1
  have : ((-1 : Int)).natAbs = 1 := rfl
  omega

theorem alLookup_append (l₁ l₂ : List (String × β)) (k : String) :
    (l₁ ++ l₂).lookup k = (l₁.lookup k).or (l₂.lookup k) := by
  induction l₁ with
  | nil => simp [List.lookup]
  | cons e l₁ ih =>
    obtain ⟨a, b⟩ := e
    cases hka : k == a <;> simp [List.lookup, hka, ih, Option.or]

theorem alLookup_alUpdate_self (l : List (String × β)) (k : String) (f : β → β) :
    (alUpdate l k f).lookup k = (l.lookup k).map f := by
  induction l with
  | nil => simp [alUpdate, List.lookup]
  | cons e l ih =>
    obtain ⟨a, b⟩ := e
    simp only [alUpdate, List.map_cons]
    by_cases h : a = k
    · subst h
      rw [if_pos rfl]
      simp [List.lookup]
    · rw [if_neg h]
      have hka : (k == a) = false := beq_eq_false_iff_ne.mpr (Ne.symm h)
      simpa [List.lookup, hka, alUpdate] using ih

theorem alLookup_alUpdate_ne (l : List (String × β)) (k k' : String) (f : β → β)
    (h : k' ≠ k) : (alUpdate l k f).lookup k' = l.lookup k' := by
  induction l with
  | nil => simp [alUpdate, List.lookup]
  | cons e l ih =>
    obtain ⟨a, b⟩ := e
    simp only [alUpdate, List.map_cons]
    by_cases ha : a = k
    · subst ha
      rw [if_pos rfl]
      have hka : (k' == a) = false := beq_eq_false_iff_ne.mpr h
      simp only [List.lookup, hka, alUpdate] at ih ⊢
      exact ih
    · rw [if_neg ha]
      cases hka : k' == a <;>
        · simp only [List.lookup, hka, alUpdate] at ih ⊢
          try exact ih

theorem mem_alUpdate {l : List (String × β)} {k : String} {f : β → β} {e : String × β}
    (he : e ∈ alUpdate l k f) :
    e ∈ l ∨ ∃ e₀, e₀ ∈ l ∧ e₀.1 = k ∧ e = (k, f e₀.2) := by
  unfold alUpdate at he
  rcases List.mem_map.mp he with ⟨e₀, he₀, heq⟩
  by_cases h : e₀.1 = k
  · right
    exact ⟨e₀, he₀, h, by simpa [h] using heq.symm⟩
  · left
    rw [if_neg h] at heq
    exact heq ▸ he₀

theorem alKeys_alUpdate (l : List (String × β)) (k : String) (f : β → β) :
    alKeys (alUpdate l k f) = alKeys l := by
  induction l with
  | nil => rfl
  | cons e l ih =>
    simp only [alUpdate, List.map_cons, alKeys] at ih ⊢
    by_cases h : e.1 = k
    · rw [if_pos h]
      simpa [h] using ih
    · rw [if_neg h]
      simpa using ih

theorem alKeys_append (l₁ l₂ : List (String × β)) :
    alKeys (l₁ ++ l₂) = alKeys l₁ ++ alKeys l₂ := by
  simp [alKeys]

theorem alLookup_eq_none_iff (l : List (String × β)) (k : String) :
    l.lookup k = none ↔ k ∉ alKeys l := by
  induction l with
  | nil => simp [List.lookup, alKeys]
  | cons e l ih =>
    obtain ⟨a, b⟩ := e
    cases hka : k == a
    · have : k ≠ a := by simpa using hka
      simp [List.lookup, hka, alKeys, ih, this]
    · have : k = a := by simpa using hka
      simp [List.lookup, hka, alKeys, this]

theorem alLookup_of_mem_nodup {l : List (String × β)} {k : String} {v : β}
    (hnd : (alKeys l).Nodup) (hm : (k, v) ∈ l) : l.lookup k = some v := by
  induction l with
  | nil => simp at hm
  | cons e l ih =>
    obtain ⟨a, b⟩ := e
    have hcons : a ∉ alKeys l ∧ (alKeys l).Nodup := by
      rw [alKeys, List.map_cons] at hnd
      exact List.nodup_cons.mp hnd
    rcases List.mem_cons.mp hm with h | h
    · injection h with h1 h2
      subst h1
      subst h2
      simp [List.lookup]
    · have hkl : k ∈ alKeys l := by
        rw [alKeys]
        exact List.mem_map.mpr ⟨(k, v), h, rfl⟩
      have hne : k ≠ a := fun hka => hcons.1 (hka ▸ hkl)
      have hfalse : (k == a) = false := beq_eq_false_iff_ne.mpr hne
      simpa [List.lookup, hfalse] using ih hcons.2 h

theorem exc_bind_ok (a : α) (f : α → Except ε γ) : (Except.ok a >>= f) = f a := rfl

theorem exc_bind_err (e : ε) (f : α → Except ε γ) :
    ((Except.error e : Except ε α) >>= f) = .error e := rfl

theorem exc_pure_eq_ok (a : α) : (pure a : Except ε α) = .ok a := rfl

theorem record_header_lookup_fresh (db : DB) (h : String) (hfresh : db.lookup h = none) :
    (record_header db h).lookup h = some ⟨[], []⟩ := by
  unfold record_header
  rw [if_pos (by rw [hfresh]; rfl), alLookup_alUpdate_self, alLookup_append, hfresh]
  simp [List.lookup]

theorem record_header_lookup_ne (db : DB) (h k : String) (hk : k ≠ h) :
    (record_header db h).lookup k = db.lookup k := by
  unfold record_header
  rw [alLookup_alUpdate_ne _ _ _ _ hk]
  by_cases hnone : (db.lookup h).isNone
  · rw [if_pos hnone, alLookup_append]
    have hsing : ([(h, (⟨[], []⟩ : ResolutionRecord))] : DB).lookup k = none := by
      simp [List.lookup, beq_eq_false_iff_ne.mpr hk]
    rw [hsing, Option.or_none]
  · rw [if_neg hnone]

theorem step_lookup_ne (fs : FileSys) (st it : List String) (up : Nat) (db db' : DB)
    (h k : String) (hk : k ≠ h)
    (hstep : include_paths_step fs st it up db h = .ok db') :
    db'.lookup k = db.lookup k := by
  simp only [include_paths_step, exc_pure_eq_ok] at hstep
  split at hstep
  · split at hstep
    · rcases hul : up_level_references_folders fs
          (joinPath (pySliceTo (splitPath h) ((up : Int) - it.length))) up (splitPath h) with
        e | amb
      · rw [hul, exc_bind_err] at hstep
        exact absurd hstep (by simp)
      · rw [hul, exc_bind_ok] at hstep
        injection hstep with hdb'
        subst hdb'
        unfold record_ambiguous_paths
        split
        · rw [alLookup_alUpdate_ne _ _ _ _ hk, record_header_lookup_ne db h k hk]
        · rw [alLookup_alUpdate_ne _ _ _ _ hk, record_header_lookup_ne db h k hk]
    · split at hstep <;>
        · injection hstep with hdb'
          subst hdb'
          first
            | (unfold record_mandatory_paths
               rw [alLookup_alUpdate_ne _ _ _ _ hk, record_header_lookup_ne db h k hk])
            | (unfold record_optional_paths
               rw [alLookup_alUpdate_ne _ _ _ _ hk, record_header_lookup_ne db h k hk])
  · injection hstep with hdb'
    subst hdb'
    rfl

theorem foldlM_frame (fs : FileSys) (st it : List String) (up : Nat) :
    ∀ (l : List String) (db dbf : DB) (k : String), (∀ h ∈ l, k ≠ h) →
      List.foldlM (include_paths_step fs st it up) db l = .ok dbf →
      dbf.lookup k = db.lookup k := by
  intro l
  induction l with
  | nil =>
    intro db dbf k _ hfold
    simp only [List.foldlM_nil, exc_pure_eq_ok] at hfold
    injection hfold with hdb
    subst hdb
    rfl
  | cons a l ih =>
    intro db dbf k hkl hfold
    rw [List.foldlM_cons] at hfold
    rcases hstep : include_paths_step fs st it up db a with e | db₁
    · rw [hstep, exc_bind_err] at hfold
      exact absurd hfold (by simp)
    · rw [hstep, exc_bind_ok] at hfold
      rw [ih db₁ dbf k (fun h hh => hkl h (List.mem_cons_of_mem a hh)) hfold,
        step_lookup_ne fs st it up db db₁ a k (hkl a (List.mem_cons_self a l)) hstep]

theorem foldlM_extract (fs : FileSys) (st it : List String) (up : Nat) :
    ∀ (l : List String) (db dbf : DB) (h : String), h ∈ l → l.Nodup →
      List.foldlM (include_paths_step fs st it up) db l = .ok dbf →
      ∃ db₁ db₂, include_paths_step fs st it up db₁ h = .ok db₂ ∧
        db₁.lookup h = db.lookup h ∧ dbf.lookup h = db₂.lookup h := by
  intro l
  induction l with
  | nil =>
    intro db dbf h hm
    exact absurd hm (List.not_mem_nil h)
  | cons a l ih =>
    intro db dbf h hm hnd hfold
    rw [List.foldlM_cons] at hfold
    rcases hstep : include_paths_step fs st it up db a with e | db₁
    · rw [hstep, exc_bind_err] at hfold
      exact absurd hfold (by simp)
    · rw [hstep, exc_bind_ok] at hfold
      rcases List.mem_cons.mp hm with rfl | hml
      · refine ⟨db, db₁, hstep, rfl, ?_⟩
        exact foldlM_frame fs st it up l db₁ dbf h
          (fun x hx hhx => (List.nodup_cons.mp hnd).1 (hhx ▸ hx)) hfold
      · obtain ⟨db₁', db₂', hs, h1, h2⟩ :=
          ih db₁ dbf h hml (List.nodup_cons.mp hnd).2 hfold
        have hha : h ≠ a := fun hha =>
          (List.nodup_cons.mp hnd).1 (hha ▸ hml)
        exact ⟨db₁', db₂', hs,
          h1.trans (step_lookup_ne fs st it up db db₁ a h hha hstep), h2⟩

theorem step_lookup_self_up0 (fs : FileSys) (st it : List String) (db db' : DB)
    (h : String) (hfresh : db.lookup h = none)
    (hcond : pySliceFrom (splitPath h) ((0 : Int) - it.length) = it.drop 0)
    (hstep : include_paths_step fs st it 0 db h = .ok db') :
    db'.lookup h = some
      { include_paths := [.pstr (joinPath (pySliceTo (splitPath h) ((0 : Int) - it.length)))]
        path_types :=
          if pySliceTo (splitPath h) (-1) = pySliceTo st (-1) then ["optional"]
          else ["mandatory"] } := by
  simp only [include_paths_step, exc_pure_eq_ok, Nat.cast_zero] at hstep
  rw [if_pos (by exact_mod_cast hcond)] at hstep
  rw [if_neg (by omega)] at hstep
  by_cases hdir : pySliceTo (splitPath h) (-1) = pySliceTo st (-1)
  · rw [if_neg (by simpa using hdir)] at hstep
    injection hstep with hdb'
    subst hdb'
    unfold record_optional_paths
    rw [alLookup_alUpdate_self, record_header_lookup_fresh db h hfresh, if_pos hdir]
    simp
  · rw [if_pos (by simpa using hdir)] at hstep
    injection hstep with hdb'
    subst hdb'
    unfold record_mandatory_paths
    rw [alLookup_alUpdate_self, record_header_lookup_fresh db h hfresh, if_neg hdir]
    simp

theorem step_lookup_self_pos (fs : FileSys) (st it : List String) (up : Nat)
    (db db' : DB) (h : String) (hup : 0 < up) (hfresh : db.lookup h = none)
    (hcond : pySliceFrom (splitPath h) ((up : Int) - it.length) = it.drop up)
    (hstep : include_paths_step fs st it up db h = .ok db') :
    ∃ amb, up_level_references_folders fs
        (joinPath (pySliceTo (splitPath h) ((up : Int) - it.length))) up (splitPath h) =
        .ok amb ∧
      db'.lookup h = some
        (if amb = [] then ⟨[.pnone], ["non_existing"]⟩
         else ⟨amb.map .pstr, ["ambiguous"]⟩) := by
  simp only [include_paths_step, exc_pure_eq_ok] at hstep
  rw [if_pos hcond, if_pos hup] at hstep
  rcases hul : up_level_references_folders fs
      (joinPath (pySliceTo (splitPath h) ((up : Int) - it.length))) up (splitPath h) with
    e | amb
  · rw [hul, exc_bind_err] at hstep
    exact absurd hstep (by simp)
  · rw [hul, exc_bind_ok] at hstep
    injection hstep with hdb'
    subst hdb'
    refine ⟨amb, rfl, ?_⟩
    unfold record_ambiguous_paths
    by_cases hamb : amb = []
    · rw [if_pos hamb, alLookup_alUpdate_self, record_header_lookup_fresh db h hfresh]
      simp [hamb]
    · rw [if_neg hamb, alLookup_alUpdate_self, record_header_lookup_fresh db h hfresh,
        if_neg hamb]
      simp

instance {ε α : Type} [DecidableEq ε] [DecidableEq α] : DecidableEq (Except ε α) := fun a b =>
  match a, b with
  | .error e, .error f =>
    if h : e = f then .isTrue (by rw [h])
    else .isFalse (by intro hh; injection hh; contradiction)
  | .ok x, .ok y =>
    if h : x = y then .isTrue (by rw [h])
    else .isFalse (by intro hh; injection hh; contradiction)
  | .error _, .ok _ => .isFalse (fun hh => Except.noConfusion hh)
  | .ok _, .error _ => .isFalse (fun hh => Except.noConfusion hh)

theorem match_iff_suffix (ht it : List String) (hne : it ≠ []) :
    pySliceFrom ht ((0 : Int) - (it.length : Int)) = it.drop 0 ↔ it <:+ ht := by
  have hlen : 0 < it.length := List.length_pos.mpr hne
  rw [List.drop_zero, zero_sub, pySliceFrom_neg ht it.length hlen,
    List.suffix_iff_eq_drop]
  exact eq_comm

theorem step_nomatch (fs : FileSys) (st it : List String) (up : Nat) (db : DB)
    (h : String)
    (hcond : ¬ pySliceFrom (splitPath h) ((up : Int) - it.length) = it.drop up) :
    include_paths_step fs st it up db h = .ok db := by
  simp only [include_paths_step, exc_pure_eq_ok]
  rw [if_neg hcond]

theorem step_up0_ok (fs : FileSys) (st it : List String) (db : DB) (h : String) :
    ∃ db', include_paths_step fs st it 0 db h = .ok db' := by
  simp only [include_paths_step, exc_pure_eq_ok]
  rw [if_neg (lt_irrefl 0)]
  split
  · split
    · exact ⟨_, rfl⟩
    · exact ⟨_, rfl⟩
  · exact ⟨_, rfl⟩

theorem foldlM_up0_ok (fs : FileSys) (st it : List String) :
    ∀ (l : List String) (db : DB),
      ∃ dbf, List.foldlM (include_paths_step fs st it 0) db l = .ok dbf := by
  intro l
  induction l with
  | nil =>
    intro db
    exact ⟨db, rfl⟩
  | cons a l ih =>
    intro db
    obtain ⟨db₁, h₁⟩ := step_up0_ok fs st it db a
    obtain ⟨dbf, hf⟩ := ih db₁
    exact ⟨dbf, by rw [List.foldlM_cons, h₁, exc_bind_ok, hf]⟩

/-- Claim C1: for a triple (source, include token, header) whose include token
contains zero ".." segments and where the header path ends in the token's
segments, the resolver records exactly the candidate directory obtained by
stripping the token's segment count from the header path's tail, tagged
"mandatory" when the two containing directories differ and "optional" when
they are equal. -/
theorem claim_C1 (fs : FileSys) (source inc : String) (headers : List String)
    (h : String) (hmem : h ∈ headers) (hnd : headers.Nodup)
    (hup : (splitPath inc).count ".." = 0)
    (hmatch : splitPath inc <:+ splitPath h) :
    ∃ db, include_paths_for_include fs source inc headers = .ok db ∧
      db.lookup h = some
        { include_paths := [.pstr (joinPath ((splitPath h).take
            ((splitPath h).length - (splitPath inc).length)))]
          path_types :=
            if (splitPath h).dropLast = (splitPath source).dropLast then ["optional"]
            else ["mandatory"] } := by
  have hlen : 0 < (splitPath inc).length :=
    List.length_pos.mpr (splitPath_ne_nil inc)
  obtain ⟨db, hok⟩ := by
    have := foldlM_up0_ok fs (splitPath source) (splitPath inc) headers []
    simpa [include_paths_for_include, hup] using this
  refine ⟨db, by simpa [include_paths_for_include, hup] using hok, ?_⟩
  obtain ⟨db₁, db₂, hstep, h1, h2⟩ :=
    foldlM_extract fs (splitPath source) (splitPath inc) 0 headers [] db h hmem hnd hok
  have hfresh : db₁.lookup h = none := by rw [h1]; rfl
  have hcond : pySliceFrom (splitPath h) ((0 : Int) - (splitPath inc).length) =
      (splitPath inc).drop 0 :=
    (match_iff_suffix (splitPath h) (splitPath inc) (splitPath_ne_nil inc)).mpr hmatch
  have := step_lookup_self_up0 fs (splitPath source) (splitPath inc) db₁ db₂ h
    hfresh (by exact_mod_cast hcond) hstep
  rw [h2, this]
  have hto : pySliceTo (splitPath h) ((0 : Int) - (splitPath inc).length) =
      (splitPath h).take ((splitPath h).length - (splitPath inc).length) := by
    rw [zero_sub, pySliceTo_neg _ _ hlen]
  rw [pySliceTo_neg_one, pySliceTo_neg_one, hto]

/-- Claim C1 witness: scenario B of the spec (source a/b/foo.c, include
token c/x.h, header a/b/c/x.h) instantiates claim C1 and yields the
mandatory candidate a/b. -/
theorem claim_C1_witness :
    ∃ db, include_paths_for_include ⟨["a", "a/b"]⟩ "a/b/foo.c" "c/x.h" ["a/b/c/x.h"] =
        .ok db ∧
      db.lookup "a/b/c/x.h" = some
        { include_paths := [.pstr (joinPath ((splitPath "a/b/c/x.h").take
            ((splitPath "a/b/c/x.h").length - (splitPath "c/x.h").length)))]
          path_types :=
            if (splitPath "a/b/c/x.h").dropLast = (splitPath "a/b/foo.c").dropLast then
              ["optional"]
            else ["mandatory"] } :=
  claim_C1 ⟨["a", "a/b"]⟩ "a/b/foo.c" "c/x.h" ["a/b/c/x.h"] "a/b/c/x.h"
    (by decide) (by decide) (by decide) ⟨["a", "b"], by decide⟩

/-- Claim C10: an include token consisting solely of ".." segments matches no
header (the suffix test compares the whole header token list with the empty
list), and the resolver returns the empty mapping for it. -/
theorem claim_C10 (fs : FileSys) (source inc : String) (headers : List String)
    (_hne : headers ≠ []) (hall : ∀ t ∈ splitPath inc, t = "..") :
    (∀ h ∈ headers, ¬ pySliceFrom (splitPath h)
        (((splitPath inc).count ".." : Int) - (splitPath inc).length) =
        (splitPath inc).drop ((splitPath inc).count "..")) ∧
    include_paths_for_include fs source inc headers = .ok [] := by
  have hcount : (splitPath inc).count ".." = (splitPath inc).length :=
    List.count_eq_length.mpr (fun t ht => (hall t ht).symm)
  have hnomatch : ∀ h : String, ¬ pySliceFrom (splitPath h)
      (((splitPath inc).count ".." : Int) - (splitPath inc).length) =
      (splitPath inc).drop ((splitPath inc).count "..") := by
    intro h
    rw [hcount]
    rw [show ((splitPath inc).length : Int) - ((splitPath inc).length : Int) = 0 by omega,
      pySliceFrom_zero, List.drop_length]
    exact splitPath_ne_nil h
  refine ⟨fun h _ => hnomatch h, ?_⟩
  have main : ∀ (l : List String),
      List.foldlM (include_paths_step fs (splitPath source) (splitPath inc)
        ((splitPath inc).count "..")) ([] : DB) l = .ok [] := by
    intro l
    induction l with
    | nil => rfl
    | cons a l ih =>
      rw [List.foldlM_cons, step_nomatch fs (splitPath source) (splitPath inc)
        ((splitPath inc).count "..") [] a (hnomatch a), exc_bind_ok]
      exact ih
  simpa [include_paths_for_include] using main headers

/-- Claim C10 witness: the all-up-references token "../.." matches no header
in a one-header inventory and produces the empty mapping. -/
theorem claim_C10_witness :
    (∀ h ∈ ["pkg/x.h"], ¬ pySliceFrom (splitPath h)
        (((splitPath "../..").count ".." : Int) - (splitPath "../..").length) =
        (splitPath "../..").drop ((splitPath "../..").count "..")) ∧
    include_paths_for_include ⟨["pkg"]⟩ "s/f.c" "../.." ["pkg/x.h"] = .ok [] :=
  claim_C10 ⟨["pkg"]⟩ "s/f.c" "../.." ["pkg/x.h"] (by decide) (by decide)

/-- Tag classification by up-reference count, shared by the C8 lemmas. -/
def tagOK (up : Nat) (t : String) : Prop :=
  (up = 0 ∧ (t = "mandatory" ∨ t = "optional")) ∨
  (0 < up ∧ (t = "ambiguous" ∨ t = "non_existing"))

theorem mem_record_header {db : DB} {h : String} {e : String × ResolutionRecord}
    (he : e ∈ record_header db h) : e ∈ db ∨ e.2.path_types = [] := by
  unfold record_header at he
  rcases mem_alUpdate he with h1 | ⟨e₀, he₀, _, rfl⟩
  · split at h1
    · rcases List.mem_append.mp h1 with h2 | h2
      · exact Or.inl h2
      · right
        rw [List.mem_singleton.mp h2]
    · exact Or.inl h1
  · right
    rfl

theorem step_tags (fs : FileSys) (st it : List String) (up : Nat) (db db' : DB)
    (h : String) (hstep : include_paths_step fs st it up db h = .ok db')
    (hinv : ∀ e ∈ db, ∀ t ∈ e.2.path_types, tagOK up t) :
    ∀ e ∈ db', ∀ t ∈ e.2.path_types, tagOK up t := by
  have hrh : ∀ e ∈ record_header db h, ∀ t ∈ e.2.path_types, tagOK up t := by
    intro e he t ht
    rcases mem_record_header he with h1 | h1
    · exact hinv e h1 t ht
    · rw [h1] at ht
      exact absurd ht (List.not_mem_nil t)
  simp only [include_paths_step, exc_pure_eq_ok] at hstep
  split at hstep
  · split at hstep
    case isTrue hup =>
      rcases hul : up_level_references_folders fs
          (joinPath (pySliceTo (splitPath h) ((up : Int) - it.length))) up (splitPath h) with
        e₀ | amb
      · rw [hul, exc_bind_err] at hstep
        exact absurd hstep (by simp)
      · rw [hul, exc_bind_ok] at hstep
        injection hstep with hdb'
        subst hdb'
        intro e he t ht
        unfold record_ambiguous_paths at he
        split at he
        · rcases mem_alUpdate he with h1 | ⟨e₀, he₀, _, rfl⟩
          · exact hrh e h1 t ht
          · simp only at ht
            split at ht
            · exact hrh e₀ he₀ t ht
            · rcases List.mem_append.mp ht with h2 | h2
              · exact hrh e₀ he₀ t h2
              · exact Or.inr ⟨hup, Or.inr (List.mem_singleton.mp h2)⟩
        · rcases mem_alUpdate he with h1 | ⟨e₀, he₀, _, rfl⟩
          · exact hrh e h1 t ht
          · simp only at ht
            split at ht
            · exact hrh e₀ he₀ t ht
            · split at ht
              · exact hrh e₀ he₀ t ht
              · rcases List.mem_append.mp ht with h2 | h2
                · exact hrh e₀ he₀ t h2
                · exact Or.inr ⟨hup, Or.inl (List.mem_singleton.mp h2)⟩
    case isFalse hup =>
      have hup0 : up = 0 := by omega
      split at hstep <;>
        · injection hstep with hdb'
          subst hdb'
          intro e he t ht
          first
            | unfold record_mandatory_paths at he
            | unfold record_optional_paths at he
          rcases mem_alUpdate he with h1 | ⟨e₀, he₀, _, rfl⟩
          · exact hrh e h1 t ht
          · simp only at ht
            split at ht
            · exact hrh e₀ he₀ t ht
            · split at ht
              · exact hrh e₀ he₀ t ht
              · rcases List.mem_append.mp ht with h2 | h2
                · exact hrh e₀ he₀ t h2
                · first
                    | exact Or.inl ⟨hup0, Or.inl (List.mem_singleton.mp h2)⟩
                    | exact Or.inl ⟨hup0, Or.inr (List.mem_singleton.mp h2)⟩
  · injection hstep with hdb'
    subst hdb'
    exact hinv

theorem foldlM_tags (fs : FileSys) (st it : List String) (up : Nat) :
    ∀ (l : List String) (db dbf : DB),
      List.foldlM (include_paths_step fs st it up) db l = .ok dbf →
      (∀ e ∈ db, ∀ t ∈ e.2.path_types, tagOK up t) →
      ∀ e ∈ dbf, ∀ t ∈ e.2.path_types, tagOK up t := by
  intro l
  induction l with
  | nil =>
    intro db dbf hfold hinv
    simp only [List.foldlM_nil, exc_pure_eq_ok] at hfold
    injection hfold with hdb
    subst hdb
    exact hinv
  | cons a l ih =>
    intro db dbf hfold hinv
    rw [List.foldlM_cons] at hfold
    rcases hstep : include_paths_step fs st it up db a with e | db₁
    · rw [hstep, exc_bind_err] at hfold
      exact absurd hfold (by simp)
    · rw [hstep, exc_bind_ok] at hfold
      exact ih db₁ dbf hfold (step_tags fs st it up db db₁ a hstep hinv)

/-- Claim C8: in every record the resolver produces, the tags "mandatory" and
"optional" occur only when the include token's up-reference count is zero,
while "ambiguous" and "non_existing" occur only when it is positive; hence no
record mixes tags of the two pairs. -/
theorem claim_C8 (fs : FileSys) (source inc : String) (headers : List String)
    (db : DB) (hok : include_paths_for_include fs source inc headers = .ok db)
    (e : String × ResolutionRecord) (he : e ∈ db) (t : String)
    (ht : t ∈ e.2.path_types) :
    ((splitPath inc).count ".." = 0 ∧ (t = "mandatory" ∨ t = "optional")) ∨
    (0 < (splitPath inc).count ".." ∧ (t = "ambiguous" ∨ t = "non_existing")) := by
  simp only [include_paths_for_include] at hok
  exact foldlM_tags fs (splitPath source) (splitPath inc)
    ((splitPath inc).count "..") headers [] db hok (by intro e he; simp at he) e he t ht

/-- Claim C8 witness: the record produced for source s/f.c, include token
x.h and header d/x.h carries the tag "mandatory", and claim C8 classifies it
with up-reference count zero. -/
theorem claim_C8_witness :
    ((splitPath "x.h").count ".." = 0 ∧
      ("mandatory" = "mandatory" ∨ "mandatory" = "optional")) ∨
    (0 < (splitPath "x.h").count ".." ∧
      ("mandatory" = "ambiguous" ∨ "mandatory" = "non_existing")) :=
  claim_C8 ⟨[]⟩ "s/f.c" "x.h" ["d/x.h"]
    [("d/x.h", ⟨[.pstr "d"], ["mandatory"]⟩)] (by decide)
    ("d/x.h", ⟨[.pstr "d"], ["mandatory"]⟩) (by decide) "mandatory" (by decide)

theorem record_header_keys (db : DB) (h : String) :
    alKeys (record_header db h) =
      if (db.lookup h).isNone then alKeys db ++ [h] else alKeys db := by
  unfold record_header
  rw [alKeys_alUpdate]
  split
  · rw [alKeys_append]
    rfl
  · rfl

theorem step_keys_nodup (fs : FileSys) (st it : List String) (up : Nat)
    (db db' : DB) (h : String)
    (hstep : include_paths_step fs st it up db h = .ok db')
    (hnd : (alKeys db).Nodup) : (alKeys db').Nodup := by
  have hrh : (alKeys (record_header db h)).Nodup := by
    rw [record_header_keys]
    split
    case isTrue hfresh =>
      have hnot : h ∉ alKeys db :=
        (alLookup_eq_none_iff db h).mp (Option.isNone_iff_eq_none.mp hfresh)
      simp [List.nodup_append, hnd, hnot, List.disjoint_singleton]
    case isFalse => exact hnd
  simp only [include_paths_step, exc_pure_eq_ok] at hstep
  split at hstep
  · split at hstep
    · rcases hul : up_level_references_folders fs
          (joinPath (pySliceTo (splitPath h) ((up : Int) - it.length))) up (splitPath h) with
        e₀ | amb
      · rw [hul, exc_bind_err] at hstep
        exact absurd hstep (by simp)
      · rw [hul, exc_bind_ok] at hstep
        injection hstep with hdb'
        subst hdb'
        unfold record_ambiguous_paths
        split <;> (rw [alKeys_alUpdate]; exact hrh)
    · split at hstep <;>
        · injection hstep with hdb'
          subst hdb'
          first
            | (unfold record_mandatory_paths; rw [alKeys_alUpdate]; exact hrh)
            | (unfold record_optional_paths; rw [alKeys_alUpdate]; exact hrh)
  · injection hstep with hdb'
    subst hdb'
    exact hnd

theorem foldlM_keys_nodup (fs : FileSys) (st it : List String) (up : Nat) :
    ∀ (l : List String) (db dbf : DB),
      List.foldlM (include_paths_step fs st it up) db l = .ok dbf →
      (alKeys db).Nodup → (alKeys dbf).Nodup := by
  intro l
  induction l with
  | nil =>
    intro db dbf hfold hnd
    simp only [List.foldlM_nil, exc_pure_eq_ok] at hfold
    injection hfold with hdb
    subst hdb
    exact hnd
  | cons a l ih =>
    intro db dbf hfold hnd
    rw [List.foldlM_cons] at hfold
    rcases hstep : include_paths_step fs st it up db a with e | db₁
    · rw [hstep, exc_bind_err] at hfold
      exact absurd hfold (by simp)
    · rw [hstep, exc_bind_ok] at hfold
      exact ih db₁ dbf hfold (step_keys_nodup fs st it up db db₁ a hstep hnd)

/-- Claim C9: over a duplicate-free header inventory, every record in the
mapping the resolver returns carries exactly one type tag, so the aggregation
step, which reads only path_types[0], observes every produced tag. -/
theorem claim_C9 (fs : FileSys) (source inc : String) (headers : List String)
    (db : DB) (hnd : headers.Nodup)
    (hok : include_paths_for_include fs source inc headers = .ok db)
    (h : String) (rec : ResolutionRecord) (hmem : (h, rec) ∈ db) :
    rec.path_types.length = 1 := by
  simp only [include_paths_for_include] at hok
  have hkeys : (alKeys db).Nodup :=
    foldlM_keys_nodup fs (splitPath source) (splitPath inc)
      ((splitPath inc).count "..") headers [] db hok (by simp [alKeys])
  have hlook : db.lookup h = some rec := alLookup_of_mem_nodup hkeys hmem
  have hmemh : h ∈ headers := by
    by_contra hnot
    have hfr := foldlM_frame fs (splitPath source) (splitPath inc)
      ((splitPath inc).count "..") headers [] db h
      (fun x hx heq => hnot (heq ▸ hx)) hok
    rw [hfr] at hlook
    exact absurd hlook (by simp [List.lookup])
  obtain ⟨db₁, db₂, hstep, h1, h2⟩ :=
    foldlM_extract fs (splitPath source) (splitPath inc)
      ((splitPath inc).count "..") headers [] db h hmemh hnd hok
  have hfresh : db₁.lookup h = none := by rw [h1]; rfl
  rw [h2] at hlook
  by_cases hcond : pySliceFrom (splitPath h)
      ((((splitPath inc).count "..") : Int) - (splitPath inc).length) =
      (splitPath inc).drop ((splitPath inc).count "..")
  · rcases Nat.eq_zero_or_pos ((splitPath inc).count "..") with hup0 | hup
    · rw [hup0] at hstep hcond
      have hself := step_lookup_self_up0 fs (splitPath source) (splitPath inc)
        db₁ db₂ h hfresh (by exact_mod_cast hcond) hstep
      rw [hself] at hlook
      injection hlook with hrec
      rw [← hrec]
      split <;> rfl
    · obtain ⟨amb, hul, hl2⟩ := step_lookup_self_pos fs (splitPath source)
        (splitPath inc) ((splitPath inc).count "..") db₁ db₂ h hup hfresh hcond hstep
      rw [hl2] at hlook
      injection hlook with hrec
      rw [← hrec]
      split <;> rfl
  · rw [step_nomatch fs (splitPath source) (splitPath inc)
      ((splitPath inc).count "..") db₁ h hcond] at hstep
    injection hstep with hdb
    rw [← hdb] at hlook
    rw [hfresh] at hlook
    exact absurd hlook (by simp)

/-- Claim C9 witness: the single record produced for source s/f.c, include
token x.h and header d/x.h has exactly one type tag. -/
theorem claim_C9_witness :
    (⟨[.pstr "d"], ["mandatory"]⟩ : ResolutionRecord).path_types.length = 1 :=
  claim_C9 ⟨[]⟩ "s/f.c" "x.h" ["d/x.h"]
    [("d/x.h", ⟨[.pstr "d"], ["mandatory"]⟩)] (by decide) (by decide)
    "d/x.h" ⟨[.pstr "d"], ["mandatory"]⟩ (by decide)

theorem foldl_dedup_filter {α : Type} [DecidableEq α] (p : α → Prop) [DecidablePred p] :
    ∀ (l acc : List α), l.Nodup → (∀ x ∈ l, x ∉ acc) →
      l.foldl (fun acc x => if p x then (if x ∉ acc then acc ++ [x] else acc) else acc)
          acc =
        acc ++ l.filter (fun x => decide (p x)) := by
  intro l
  induction l with
  | nil =>
    intro acc _ _
    simp
  | cons a l ih =>
    intro acc hnd hdis
    rw [List.foldl_cons]
    by_cases hpa : p a
    · rw [if_pos hpa, if_pos (hdis a (List.mem_cons_self a l))]
      rw [ih (acc ++ [a]) (List.nodup_cons.mp hnd).2 ?hdis2]
      · rw [List.filter_cons_of_pos (by simpa using hpa), List.append_assoc]
        rfl
      case hdis2 =>
        intro x hx hmem
        rcases List.mem_append.mp hmem with hin | hin
        · exact hdis x (List.mem_cons_of_mem a hx) hin
        · exact (List.nodup_cons.mp hnd).1 (List.mem_singleton.mp hin ▸ hx)
    · rw [if_neg hpa,
        ih acc (List.nodup_cons.mp hnd).2 (fun x hx => hdis x (List.mem_cons_of_mem a hx)),
        List.filter_cons_of_neg (by simpa using hpa)]

theorem up_level_ok_base_mem (fs : FileSys) (base : String) (up : Nat)
    (ht : List String) (amb : List String)
    (h : up_level_references_folders fs base up ht = .ok amb) : base ∈ fs.dirs := by
  by_cases hb : base ∈ fs.dirs
  · exact hb
  · unfold up_level_references_folders scandirDirs at h
    rw [if_neg hb, exc_bind_err] at h
    exact absurd h (by simp)

theorem up_level_eq_filter (fs : FileSys) (base : String) (up : Nat)
    (ht : List String) (hnd : fs.dirs.Nodup) (hbase : base ∈ fs.dirs) :
    up_level_references_folders fs base up ht =
      .ok ((fs.dirs.filter (fun d => isImmediateSubdir base d)).filter
        (fun d => decide (ht.length - 1 < (splitPath d).length ∧
          (splitPath d).length ≤ ht.length - 1 + up))) := by
  unfold up_level_references_folders scandirDirs
  rw [if_pos hbase, exc_bind_ok, exc_pure_eq_ok]
  congr 1
  have hthis := foldl_dedup_filter
    (fun d : String => ht.length - 1 < (splitPath d).length ∧
      (splitPath d).length ≤ ht.length - 1 + up)
    (fs.dirs.filter (fun d => isImmediateSubdir base d)) []
    (List.Nodup.filter _ hnd) (by simp)
  rw [List.nil_append] at hthis
  exact hthis

/-- Claim C2, amended: for a matched header whose include token has a positive
up-reference count, the resolver enumerates only the IMMEDIATE subdirectories
of candidateBase whose segment-count depth lies in the open-closed range
(originDepth, originDepth + upCount], originDepth being the header segment
count minus one; the record is tagged "ambiguous" with exactly those
candidates and "non_existing" (with the None placeholder) when the
enumeration is empty.  Nested subdirectories are never enumerated. -/
theorem claim_C2_amended (fs : FileSys) (source inc : String) (headers : List String)
    (db : DB) (h : String) (hmem : h ∈ headers) (hnd : headers.Nodup)
    (hfsnd : fs.dirs.Nodup)
    (hup : 0 < (splitPath inc).count "..")
    (hmatch : pySliceFrom (splitPath h)
        (((splitPath inc).count ".." : Int) - (splitPath inc).length) =
        (splitPath inc).drop ((splitPath inc).count ".."))
    (hok : include_paths_for_include fs source inc headers = .ok db) :
    db.lookup h = some
      (let E := (fs.dirs.filter (fun d => isImmediateSubdir
          (joinPath (pySliceTo (splitPath h)
            (((splitPath inc).count ".." : Int) - (splitPath inc).length))) d)).filter
          (fun d => decide ((splitPath h).length - 1 < (splitPath d).length ∧
            (splitPath d).length ≤ (splitPath h).length - 1 + (splitPath inc).count ".."));
       if E = [] then ⟨[.pnone], ["non_existing"]⟩ else ⟨E.map .pstr, ["ambiguous"]⟩) := by
  simp only [include_paths_for_include] at hok
  obtain ⟨db₁, db₂, hstep, h1, h2⟩ :=
    foldlM_extract fs (splitPath source) (splitPath inc)
      ((splitPath inc).count "..") headers [] db h hmem hnd hok
  have hfresh : db₁.lookup h = none := by rw [h1]; rfl
  obtain ⟨amb, hul, hl2⟩ := step_lookup_self_pos fs (splitPath source)
    (splitPath inc) ((splitPath inc).count "..") db₁ db₂ h hup hfresh hmatch hstep
  have hbase := up_level_ok_base_mem fs _ _ _ _ hul
  rw [up_level_eq_filter fs _ _ _ hfsnd hbase] at hul
  injection hul with hamb
  rw [h2, hl2, hamb]

/-- Claim C2 amended witness: scenario C of the spec (source a/b/c/foo.c,
include ../x.h, header a/b/x.h, subdirectories a/b/c and a/b/d on disk)
yields the ambiguous candidates a/b/c and a/b/d. -/
theorem claim_C2_amended_witness :
    ([("a/b/x.h", (⟨[.pstr "a/b/c", .pstr "a/b/d"], ["ambiguous"]⟩ :
        ResolutionRecord))] : DB).lookup "a/b/x.h" = some
      (let E := ((⟨["a", "a/b", "a/b/c", "a/b/d"]⟩ : FileSys).dirs.filter
          (fun d => isImmediateSubdir
          (joinPath (pySliceTo (splitPath "a/b/x.h")
            (((splitPath "../x.h").count ".." : Int) - (splitPath "../x.h").length))) d)).filter
          (fun d => decide ((splitPath "a/b/x.h").length - 1 < (splitPath d).length ∧
            (splitPath d).length ≤
              (splitPath "a/b/x.h").length - 1 + (splitPath "../x.h").count ".."));
       if E = [] then ⟨[.pnone], ["non_existing"]⟩ else ⟨E.map .pstr, ["ambiguous"]⟩) :=
  claim_C2_amended ⟨["a", "a/b", "a/b/c", "a/b/d"]⟩ "a/b/c/foo.c" "../x.h"
    ["a/b/x.h"] [("a/b/x.h", ⟨[.pstr "a/b/c", .pstr "a/b/d"], ["ambiguous"]⟩)]
    "a/b/x.h" (by decide) (by decide) (by decide) (by decide) (by decide) (by decide)

/-- Claim C2 counterexample: with directories r, r/a, r/a/b and s on disk,
source s/f.c, include token ../../x.h and header r/x.h, the code's candidate
list contains only the immediate subdirectory r/a, whereas the claim's
immediate-and-nested enumeration over the depth range (1, 3] also contains
the nested subdirectory r/a/b; the claim as stated is therefore false. -/
theorem claim_C2_counterexample :
    include_paths_for_include ⟨["r", "r/a", "r/a/b", "s"]⟩ "s/f.c" "../../x.h"
        ["r/x.h"] =
      .ok [("r/x.h", ⟨[.pstr "r/a"], ["ambiguous"]⟩)] ∧
    spec_subdirs_in_depth_range ⟨["r", "r/a", "r/a/b", "s"]⟩ "r"
        ((splitPath "r/x.h").length - 1) ((splitPath "../../x.h").count "..") =
      ["r/a", "r/a/b"] ∧
    [PathElem.pstr "r/a"] ≠ (["r/a", "r/a/b"].map PathElem.pstr) := by
  refine ⟨by decide, by decide, by decide⟩

/-- Claim C4: the coverage percentages of pdsc_coverage divide by the header
count and the source count without any zero guard, so an empty tree (zero
headers, zero sources) raises ZeroDivisionError instead of producing the
"undefined" sentinel the specification requires. -/
theorem claim_C4_zero_denominator :
    visibility_quotient 0 0 = .error "ZeroDivisionError" ∧
    sources_visibility_quotient 0 0 = .error "ZeroDivisionError" := by
  constructor <;> decide

/-- Claim C5: when candidateBase is absent from the disk (here the header
inventory lists pkg/x.h but no directory pkg exists), the os.scandir call
inside up_level_references_folders raises FileNotFoundError, which propagates
out of include_paths_for_include instead of being recorded as NonExisting. -/
theorem claim_C5_raises :
    include_paths_for_include ⟨["s"]⟩ "s/f.c" "../x.h" ["pkg/x.h"] =
      .error "FileNotFoundError" := by
  decide

theorem mem_pySort (l : List String) (x : String) : x ∈ pySort l ↔ x ∈ l :=
  (List.mergeSort_perm l _).mem_iff

theorem mem_pySortedSet (l : List String) (x : String) : x ∈ pySortedSet l ↔ x ∈ l := by
  rw [pySortedSet, mem_pySort, List.mem_dedup]

theorem mem_inner_fold (inc : String) (file_list : List String) :
    ∀ (acc : List String) (x : String),
      x ∈ file_list.foldl
          (fun acc file =>
            let file_tokens := splitPath file
            if pySliceFrom file_tokens
                (((splitPath inc).count ".." : Int) - (splitPath inc).length) =
                (splitPath inc).drop ((splitPath inc).count "..") then
              acc ++ [inc]
            else acc)
          acc ↔
        x ∈ acc ∨ (x = inc ∧ ∃ file ∈ file_list,
          pySliceFrom (splitPath file)
            (((splitPath inc).count ".." : Int) - (splitPath inc).length) =
            (splitPath inc).drop ((splitPath inc).count "..")) := by
  induction file_list with
  | nil =>
    intro acc x
    simp
  | cons a l ih =>
    intro acc x
    rw [List.foldl_cons]
    by_cases hqa : pySliceFrom (splitPath a)
        (((splitPath inc).count ".." : Int) - (splitPath inc).length) =
        (splitPath inc).drop ((splitPath inc).count "..")
    · rw [if_pos hqa, ih]
      constructor
      · rintro (hmem | ⟨rfl, a', ha', hqa'⟩)
        · rcases List.mem_append.mp hmem with h1 | h1
          · exact Or.inl h1
          · exact Or.inr ⟨List.mem_singleton.mp h1, a, List.mem_cons_self a l, hqa⟩
        · exact Or.inr ⟨rfl, a', List.mem_cons_of_mem a ha', hqa'⟩
      · rintro (hmem | ⟨rfl, a', ha', hqa'⟩)
        · exact Or.inl (List.mem_append.mpr (Or.inl hmem))
        · rcases List.mem_cons.mp ha' with rfl | h1
          · exact Or.inl (List.mem_append.mpr (Or.inr (List.mem_singleton.mpr rfl)))
          · exact Or.inr ⟨rfl, a', h1, hqa'⟩
    · rw [if_neg hqa, ih]
      constructor
      · rintro (hmem | ⟨rfl, a', ha', hqa'⟩)
        · exact Or.inl hmem
        · exact Or.inr ⟨rfl, a', List.mem_cons_of_mem a ha', hqa'⟩
      · rintro (hmem | ⟨rfl, a', ha', hqa'⟩)
        · exact Or.inl hmem
        · rcases List.mem_cons.mp ha' with rfl | h1
          · exact absurd hqa' hqa
          · exact Or.inr ⟨rfl, a', h1, hqa'⟩

theorem mem_internal_includes (include_list file_list : List String) (x : String) :
    x ∈ internal_includes include_list file_list ↔
      x ∈ include_list ∧ ∃ file ∈ file_list,
        pySliceFrom (splitPath file)
          (((splitPath x).count ".." : Int) - (splitPath x).length) =
          (splitPath x).drop ((splitPath x).count "..") := by
  rw [internal_includes, mem_pySortedSet]
  have main : ∀ (il acc : List String),
      x ∈ il.foldl
        (fun internal_include_list inc =>
          let include_tokens := splitPath inc
          let up_reference_count := include_tokens.count ".."
          file_list.foldl
            (fun acc file =>
              let file_tokens := splitPath file
              if pySliceFrom file_tokens
                  ((up_reference_count : Int) - include_tokens.length) =
                  include_tokens.drop up_reference_count then
                acc ++ [inc]
              else acc)
            internal_include_list)
        acc ↔
      x ∈ acc ∨ (x ∈ il ∧ ∃ file ∈ file_list,
        pySliceFrom (splitPath file)
          (((splitPath x).count ".." : Int) - (splitPath x).length) =
          (splitPath x).drop ((splitPath x).count "..")) := by
    intro il
    induction il with
    | nil =>
      intro acc
      simp
    | cons a il ih =>
      intro acc
      rw [List.foldl_cons, ih, mem_inner_fold a file_list acc x]
      constructor
      · rintro ((hmem | ⟨rfl, hex⟩) | ⟨hmem, hex⟩)
        · exact Or.inl hmem
        · exact Or.inr ⟨List.mem_cons_self x il, hex⟩
        · exact Or.inr ⟨List.mem_cons_of_mem a hmem, hex⟩
      · rintro (hmem | ⟨hmem, hex⟩)
        · exact Or.inl (Or.inl hmem)
        · rcases List.mem_cons.mp hmem with rfl | h1
          · exact Or.inl (Or.inr ⟨rfl, hex⟩)
          · exact Or.inr ⟨h1, hex⟩
  rw [main include_list []]
  simp

theorem mem_external_includes (include_list internal_include_list : List String)
    (x : String) :
    x ∈ external_includes include_list internal_include_list ↔
      x ∈ include_list ∧ x ∉ internal_include_list := by
  rw [external_includes, mem_pySortedSet, List.mem_filter]
  simp

/-- Claim C7: for every include-token list and header inventory, the internal
and external include sets partition the token set: their union is the token
set and they are disjoint. -/
theorem claim_C7 (include_list file_list : List String) (x : String) :
    ((x ∈ internal_includes include_list file_list ∨
        x ∈ external_includes include_list (internal_includes include_list file_list)) ↔
      x ∈ include_list) ∧
    ¬ (x ∈ internal_includes include_list file_list ∧
        x ∈ external_includes include_list (internal_includes include_list file_list)) := by
  constructor
  · constructor
    · rintro (h | h)
      · exact ((mem_internal_includes include_list file_list x).mp h).1
      · exact ((mem_external_includes include_list _ x).mp h).1
    · intro hmem
      by_cases hint : x ∈ internal_includes include_list file_list
      · exact Or.inl hint
      · exact Or.inr ((mem_external_includes include_list _ x).mpr ⟨hmem, hint⟩)
  · rintro ⟨hint, hext⟩
    exact ((mem_external_includes include_list _ x).mp hext).2 hint

theorem al_unique_of_nodup {paths : List (String × List String)}
    (hnd : (alKeys paths).Nodup) {p : String} {ts : List String}
    (hmem : (p, ts) ∈ paths) {e : String × List String} (he : e ∈ paths)
    (hep : e.1 = p) : e = (p, ts) := by
  have h1 : List.lookup p paths = some ts := alLookup_of_mem_nodup hnd hmem
  have h2 : List.lookup p paths = some e.2 := by
    refine alLookup_of_mem_nodup hnd ?_
    rw [← hep]
    exact he
  have h3 : e.2 = ts := by
    have := h2.symm.trans h1
    injection this
  rw [← hep, ← h3]

theorem bucket_mem {paths : List (String × List String)}
    (hnd : (alKeys paths).Nodup) {p : String} {ts : List String}
    (hmem : (p, ts) ∈ paths) (q : String × List String → Prop) [DecidablePred q] :
    p ∈ pySort ((paths.filter (fun e => decide (q e))).map Prod.fst) ↔ q (p, ts) := by
  rw [mem_pySort]
  constructor
  · intro h
    obtain ⟨e, he, hep⟩ := List.mem_map.mp h
    obtain ⟨hel, heq⟩ := List.mem_filter.mp he
    have := al_unique_of_nodup hnd hmem hel hep
    rw [this] at heq
    exact of_decide_eq_true heq
  · intro h
    exact List.mem_map.mpr ⟨(p, ts),
      List.mem_filter.mpr ⟨hmem, decide_eq_true h⟩, rfl⟩

/-- Claim C3: path_types_report places a path in the mandatory bucket exactly
when "mandatory" is among its accumulated types, in the optional bucket
exactly when "optional" is present and "mandatory" absent, and in the
ambiguous bucket exactly when "ambiguous" is present and "mandatory" absent;
hence a Mandatory-and-Optional path appears only in mandatory, while an
Optional-and-Ambiguous path (without Mandatory) appears in both of those
buckets. -/
theorem claim_C3 (paths : List (String × List String))
    (hnd : (alKeys paths).Nodup) (p : String) (ts : List String)
    (hmem : (p, ts) ∈ paths) :
    (p ∈ (path_types_report paths).mandatory ↔ "mandatory" ∈ ts) ∧
    (p ∈ (path_types_report paths).optional ↔
      ("optional" ∈ ts ∧ "mandatory" ∉ ts)) ∧
    (p ∈ (path_types_report paths).ambiguous ↔
      ("ambiguous" ∈ ts ∧ "mandatory" ∉ ts)) := by
  refine ⟨?_, ?_, ?_⟩
  · exact bucket_mem hnd hmem (fun e => "mandatory" ∈ e.2)
  · exact bucket_mem hnd hmem (fun e => "optional" ∈ e.2 ∧ "mandatory" ∉ e.2)
  · exact bucket_mem hnd hmem (fun e => "ambiguous" ∈ e.2 ∧ "mandatory" ∉ e.2)

/-- Claim C3 witness: on a report where path p carries Optional and Ambiguous
and path q carries Mandatory and Optional, the bucket membership of q
instantiates claim C3 (q lands only in mandatory). -/
theorem claim_C3_witness :
    ("q" ∈ (path_types_report
        [("p", ["optional", "ambiguous"]), ("q", ["mandatory", "optional"])]).mandatory ↔
      "mandatory" ∈ ["mandatory", "optional"]) ∧
    ("q" ∈ (path_types_report
        [("p", ["optional", "ambiguous"]), ("q", ["mandatory", "optional"])]).optional ↔
      ("optional" ∈ ["mandatory", "optional"] ∧
        "mandatory" ∉ ["mandatory", "optional"])) ∧
    ("q" ∈ (path_types_report
        [("p", ["optional", "ambiguous"]), ("q", ["mandatory", "optional"])]).ambiguous ↔
      ("ambiguous" ∈ ["mandatory", "optional"] ∧
        "mandatory" ∉ ["mandatory", "optional"])) :=
  claim_C3 [("p", ["optional", "ambiguous"]), ("q", ["mandatory", "optional"])]
    (by decide) "q" ["mandatory", "optional"] (by decide)

theorem mem_addTag (ts : List String) (t t' : String) :
    t ∈ addTag ts t' ↔ t ∈ ts ∨ t = t' := by
  unfold addTag
  split
  case isTrue hmem =>
    constructor
    · exact Or.inl
    · rintro (h | rfl)
      · exact h
      · exact hmem
  case isFalse hmem =>
    rw [List.mem_append, List.mem_singleton]

theorem addTag_idem (ts : List String) (t : String) :
    addTag (addTag ts t) t = addTag ts t := by
  unfold addTag
  split
  case isTrue hmem => rfl
  case isFalse hmem => rw [if_pos (List.mem_append.mpr (Or.inr (List.mem_singleton.mpr rfl)))]

theorem assign_types_skip (paths : List (String × List String))
    (r : ResolutionRecord) (path : PathElem)
    (hskip : pyInStr "non_existing" (get_include_types r) = true) :
    assign_types paths r path = paths := by
  simp only [assign_types]
  rw [if_pos hskip]

theorem assign_types_pnone (paths : List (String × List String))
    (r : ResolutionRecord) : assign_types paths r .pnone = paths := by
  simp only [assign_types]
  split <;> rfl

theorem assign_types_plist (paths : List (String × List String))
    (r : ResolutionRecord) (l : List String) :
    assign_types paths r (.plist l) = paths := by
  simp only [assign_types]
  split <;> rfl

theorem assign_types_keys_nodup (paths : List (String × List String))
    (r : ResolutionRecord) (path : PathElem) (h : (alKeys paths).Nodup) :
    (alKeys (assign_types paths r path)).Nodup := by
  cases path with
  | pnone =>
    rw [assign_types_pnone]
    exact h
  | plist l =>
    rw [assign_types_plist]
    exact h
  | pstr p =>
    by_cases hskip : pyInStr "non_existing" (get_include_types r) = true
    · rw [assign_types_skip paths r _ hskip]
      exact h
    · simp only [assign_types]
      rw [if_neg hskip]
      by_cases hfresh : (List.lookup p paths).isNone
      · rw [if_pos hfresh, alKeys_alUpdate, alKeys_append]
        have hnot : p ∉ alKeys paths :=
          (alLookup_eq_none_iff paths p).mp (Option.isNone_iff_eq_none.mp hfresh)
        refine List.nodup_append.mpr ⟨h, List.nodup_singleton p, ?_⟩
        intro x hx hxs
        have hxp : x = p := List.mem_singleton.mp hxs
        exact hnot (hxp ▸ hx)
      · rw [if_neg hfresh, alKeys_alUpdate]
        exact h

theorem assign_types_pstr_lookup_ne (paths : List (String × List String))
    (r : ResolutionRecord) (p q : String) (hpq : q ≠ p) :
    (assign_types paths r (.pstr p)).lookup q = paths.lookup q := by
  by_cases hskip : pyInStr "non_existing" (get_include_types r) = true
  · rw [assign_types_skip paths r _ hskip]
  · simp only [assign_types]
    rw [if_neg hskip]
    by_cases hfresh : (List.lookup p paths).isNone
    · rw [if_pos hfresh, alLookup_alUpdate_ne _ _ _ _ hpq, alLookup_append]
      have hsing : ([(p, ([] : List String))] : List (String × List String)).lookup q = none := by
        simp [List.lookup, beq_eq_false_iff_ne.mpr hpq]
      rw [hsing, Option.or_none]
    · rw [if_neg hfresh, alLookup_alUpdate_ne _ _ _ _ hpq]

theorem assign_types_pstr_lookup_self (paths : List (String × List String))
    (r : ResolutionRecord) (p : String)
    (hns : pyInStr "non_existing" (get_include_types r) = false) :
    (assign_types paths r (.pstr p)).lookup p =
      some (addTag ((paths.lookup p).getD []) (get_include_types r)) := by
  simp only [assign_types]
  rw [if_neg (by simp [hns])]
  rcases hl : List.lookup p paths with _ | ts
  · rw [if_pos (by rfl), alLookup_alUpdate_self, alLookup_append, hl]
    have hsing : ([(p, ([] : List String))] : List (String × List String)).lookup p =
        some [] := by
      simp [List.lookup]
    rw [hsing]
    rfl
  · rw [if_neg (by simp), alLookup_alUpdate_self, hl]
    rfl

theorem rec_fold_skip (r : ResolutionRecord)
    (hskip : pyInStr "non_existing" (get_include_types r) = true) :
    ∀ (ips : List PathElem) (paths : List (String × List String)),
      ips.foldl (fun paths path => assign_types paths r path) paths = paths := by
  intro ips
  induction ips with
  | nil =>
    intro paths
    rfl
  | cons a ips ih =>
    intro paths
    rw [List.foldl_cons, assign_types_skip _ _ _ hskip, ih]

theorem rec_fold_lookup (r : ResolutionRecord)
    (hns : pyInStr "non_existing" (get_include_types r) = false) :
    ∀ (ips : List PathElem) (paths : List (String × List String)) (q : String),
      (ips.foldl (fun paths path => assign_types paths r path) paths).lookup q =
        if PathElem.pstr q ∈ ips then
          some (addTag ((paths.lookup q).getD []) (get_include_types r))
        else paths.lookup q := by
  intro ips
  induction ips with
  | nil =>
    intro paths q
    rw [List.foldl_nil, if_neg (List.not_mem_nil _)]
  | cons a ips ih =>
    intro paths q
    rw [List.foldl_cons]
    cases a with
    | pnone =>
      rw [assign_types_pnone, ih]
      by_cases hm : PathElem.pstr q ∈ ips
      · rw [if_pos hm, if_pos (List.mem_cons_of_mem _ hm)]
      · rw [if_neg hm, if_neg ?hnc]
        case hnc =>
          intro hc
          rcases List.mem_cons.mp hc with h1 | h1
          · exact PathElem.noConfusion h1
          · exact hm h1
    | plist l =>
      rw [assign_types_plist, ih]
      by_cases hm : PathElem.pstr q ∈ ips
      · rw [if_pos hm, if_pos (List.mem_cons_of_mem _ hm)]
      · rw [if_neg hm, if_neg ?hnc2]
        case hnc2 =>
          intro hc
          rcases List.mem_cons.mp hc with h1 | h1
          · exact PathElem.noConfusion h1
          · exact hm h1
    | pstr s =>
      by_cases hsq : s = q
      · subst hsq
        rw [ih, assign_types_pstr_lookup_self paths r s hns]
        by_cases hm : PathElem.pstr s ∈ ips
        · rw [if_pos hm, if_pos (List.mem_cons_self _ _)]
          simp only [Option.getD_some]
          rw [addTag_idem]
        · rw [if_neg hm, if_pos (List.mem_cons_self _ _)]
      · rw [ih, assign_types_pstr_lookup_ne paths r s q (fun h => hsq h.symm)]
        by_cases hm : PathElem.pstr q ∈ ips
        · rw [if_pos hm, if_pos (List.mem_cons_of_mem _ hm)]
        · rw [if_neg hm, if_neg ?hnc3]
          case hnc3 =>
            intro hc
            rcases List.mem_cons.mp hc with h1 | h1
            · exact hsq (by injection h1 with h; exact h.symm)
            · exact hm h1

/-- A record of the collection contributes tag t to path p exactly when p is
among its candidate paths, its first tag is t, and that tag does not contain
the substring "non_existing". -/
def contributes (records : List ResolutionRecord) (p t : String) : Prop :=
  ∃ r ∈ records, PathElem.pstr p ∈ r.include_paths ∧
    pyInStr "non_existing" (get_include_types r) = false ∧ t = get_include_types r

theorem contributes_perm {recs₁ recs₂ : List ResolutionRecord}
    (h : recs₁.Perm recs₂) (p t : String) :
    contributes recs₁ p t ↔ contributes recs₂ p t := by
  unfold contributes
  constructor <;> rintro ⟨r, hr, hrest⟩
  · exact ⟨r, h.mem_iff.mp hr, hrest⟩
  · exact ⟨r, h.mem_iff.mpr hr, hrest⟩

theorem paths_report_char :
    ∀ (recs : List ResolutionRecord) (paths : List (String × List String)) (q : String),
      (∀ ts, (recs.foldl (fun paths record =>
          record.include_paths.foldl (fun paths path => assign_types paths record path)
            paths) paths).lookup q = some ts →
        ∀ t, (t ∈ ts ↔
          ((∃ ts₀, paths.lookup q = some ts₀ ∧ t ∈ ts₀) ∨ contributes recs q t))) ∧
      (((recs.foldl (fun paths record =>
          record.include_paths.foldl (fun paths path => assign_types paths record path)
            paths) paths).lookup q).isSome ↔
        ((paths.lookup q).isSome ∨ ∃ t, contributes recs q t)) := by
  intro recs
  induction recs with
  | nil =>
    intro paths q
    constructor
    · intro ts hts t
      rw [List.foldl_nil] at hts
      rw [hts]
      simp [contributes]
    · rw [List.foldl_nil]
      simp [contributes]
  | cons r recs ih =>
    intro paths q
    rw [List.foldl_cons]
    by_cases hskip : pyInStr "non_existing" (get_include_types r) = true
    · have hsame : r.include_paths.foldl (fun paths path => assign_types paths r path)
          paths = paths := rec_fold_skip r hskip r.include_paths paths
      have hcontr : ∀ t, contributes (r :: recs) q t ↔ contributes recs q t := by
        intro t
        unfold contributes
        constructor
        · rintro ⟨r', hr', h1, h2, h3⟩
          rcases List.mem_cons.mp hr' with rfl | hmem
          · rw [hskip] at h2
            exact absurd h2 (by simp)
          · exact ⟨r', hmem, h1, h2, h3⟩
        · rintro ⟨r', hr', rest⟩
          exact ⟨r', List.mem_cons_of_mem _ hr', rest⟩
      obtain ⟨ih1, ih2⟩ := ih paths q
      constructor
      · intro ts hts t
        rw [hsame] at hts
        rw [ih1 ts hts t]
        exact or_congr Iff.rfl (hcontr t).symm
      · rw [hsame, ih2]
        exact or_congr Iff.rfl (exists_congr fun t => (hcontr t).symm)
    · have hns : pyInStr "non_existing" (get_include_types r) = false := by
        simpa using hskip
      have hlook₁ : ∀ q' : String,
          (r.include_paths.foldl (fun paths path => assign_types paths r path)
            paths).lookup q' =
          if PathElem.pstr q' ∈ r.include_paths then
            some (addTag ((paths.lookup q').getD []) (get_include_types r))
          else paths.lookup q' :=
        fun q' => rec_fold_lookup r hns r.include_paths paths q'
      obtain ⟨ih1, ih2⟩ :=
        ih (r.include_paths.foldl (fun paths path => assign_types paths r path) paths) q
      have hcontr : ∀ t, contributes (r :: recs) q t ↔
          ((PathElem.pstr q ∈ r.include_paths ∧ t = get_include_types r) ∨
            contributes recs q t) := by
        intro t
        unfold contributes
        constructor
        · rintro ⟨r', hr', h1, h2, h3⟩
          rcases List.mem_cons.mp hr' with rfl | hmem
          · exact Or.inl ⟨h1, h3⟩
          · exact Or.inr ⟨r', hmem, h1, h2, h3⟩
        · rintro (⟨h1, h3⟩ | ⟨r', hm, rest⟩)
          · exact ⟨r, List.mem_cons_self _ _, h1, hns, h3⟩
          · exact ⟨r', List.mem_cons_of_mem _ hm, rest⟩
      by_cases hq : PathElem.pstr q ∈ r.include_paths
      · have hl : (r.include_paths.foldl (fun paths path => assign_types paths r path)
            paths).lookup q =
            some (addTag ((paths.lookup q).getD []) (get_include_types r)) := by
          rw [hlook₁ q, if_pos hq]
        constructor
        · intro ts hts t
          rw [ih1 ts hts t]
          constructor
          · rintro (⟨ts₀, hts₀, htm⟩ | hc)
            · rw [hl] at hts₀
              injection hts₀ with hts₀
              rw [← hts₀, mem_addTag] at htm
              rcases htm with htm | rfl
              · rcases hpl : paths.lookup q with _ | ts'
                · rw [hpl] at htm
                  exact absurd htm (List.not_mem_nil t)
                · rw [hpl] at htm
                  exact Or.inl ⟨ts', rfl, htm⟩
              · exact Or.inr ((hcontr _).mpr (Or.inl ⟨hq, rfl⟩))
            · exact Or.inr ((hcontr t).mpr (Or.inr hc))
          · rintro (⟨ts₀, hts₀, htm⟩ | hc)
            · refine Or.inl ⟨addTag ((paths.lookup q).getD []) (get_include_types r),
                hl, ?_⟩
              rw [mem_addTag]
              left
              rw [hts₀]
              exact htm
            · rcases (hcontr t).mp hc with ⟨hq', ht⟩ | hc'
              · exact Or.inl ⟨_, hl, by rw [mem_addTag]; exact Or.inr ht⟩
              · exact Or.inr hc'
        · rw [ih2]
          constructor
          · intro _
            exact Or.inr ⟨get_include_types r, (hcontr _).mpr (Or.inl ⟨hq, rfl⟩)⟩
          · intro _
            exact Or.inl (by rw [hl]; rfl)
      · have hl : (r.include_paths.foldl (fun paths path => assign_types paths r path)
            paths).lookup q = paths.lookup q := by
          rw [hlook₁ q, if_neg hq]
        have hcontr' : ∀ t, contributes (r :: recs) q t ↔ contributes recs q t := by
          intro t
          rw [hcontr t]
          constructor
          · rintro (⟨h1, _⟩ | hc)
            · exact absurd h1 hq
            · exact hc
          · exact Or.inr
        constructor
        · intro ts hts t
          rw [ih1 ts hts t, hl]
          exact or_congr Iff.rfl (hcontr' t).symm
        · rw [ih2, hl]
          exact or_congr Iff.rfl (exists_congr fun t => (hcontr' t).symm)

theorem paths_report_keys_nodup (recs : List ResolutionRecord) :
    (alKeys (paths_report recs)).Nodup := by
  have main : ∀ (recs : List ResolutionRecord) (paths : List (String × List String)),
      (alKeys paths).Nodup →
      (alKeys (recs.foldl (fun paths record =>
        record.include_paths.foldl (fun paths path => assign_types paths record path)
          paths) paths)).Nodup := by
    intro recs
    induction recs with
    | nil =>
      intro paths h
      exact h
    | cons r recs ih =>
      intro paths h
      rw [List.foldl_cons]
      apply ih
      have inner : ∀ (ips : List PathElem) (paths : List (String × List String)),
          (alKeys paths).Nodup →
          (alKeys (ips.foldl (fun paths path => assign_types paths r path) paths)).Nodup := by
        intro ips
        induction ips with
        | nil =>
          intro paths h
          exact h
        | cons a ips ih' =>
          intro paths h
          rw [List.foldl_cons]
          exact ih' _ (assign_types_keys_nodup _ _ _ h)
      exact inner r.include_paths paths h
  exact main recs [] (by simp [alKeys])

theorem alLookup_mem {l : List (String × β)} {k : String} {v : β}
    (h : l.lookup k = some v) : (k, v) ∈ l := by
  induction l with
  | nil => simp [List.lookup] at h
  | cons e l ih =>
    obtain ⟨a, b⟩ := e
    cases hka : k == a
    · simp only [List.lookup, hka] at h
      exact List.mem_cons_of_mem _ (ih h)
    · simp only [List.lookup, hka] at h
      injection h with hbv
      have hk : k = a := by simpa using hka
      rw [hk, hbv]
      exact List.mem_cons_self _ _

theorem mem_filter_map_fst {paths : List (String × List String)}
    {q : String × List String → Prop} [DecidablePred q] {p : String} :
    p ∈ (paths.filter (fun e => decide (q e))).map Prod.fst ↔
      ∃ ts, (p, ts) ∈ paths ∧ q (p, ts) := by
  constructor
  · intro h
    obtain ⟨e, he, hep⟩ := List.mem_map.mp h
    obtain ⟨hel, heq⟩ := List.mem_filter.mp he
    refine ⟨e.2, ?_, ?_⟩
    · rw [← hep]
      exact hel
    · rw [← hep]
      exact of_decide_eq_true heq
  · rintro ⟨ts, hmem, hq⟩
    exact List.mem_map.mpr ⟨(p, ts), List.mem_filter.mpr ⟨hmem, decide_eq_true hq⟩, rfl⟩

theorem paths_report_lookup_char (recs : List ResolutionRecord) (q : String) :
    (∀ ts, (paths_report recs).lookup q = some ts →
      ∀ t, (t ∈ ts ↔ contributes recs q t)) ∧
    (((paths_report recs).lookup q).isSome ↔ ∃ t, contributes recs q t) := by
  obtain ⟨h1, h2⟩ := paths_report_char recs [] q
  constructor
  · intro ts hts t
    rw [paths_report] at hts
    rw [h1 ts hts t]
    simp [List.lookup]
  · rw [paths_report, h2]
    simp [List.lookup]

theorem pySort_eq_of_mem (l₁ l₂ : List String) (h₁ : l₁.Nodup) (h₂ : l₂.Nodup)
    (hmem : ∀ x, x ∈ l₁ ↔ x ∈ l₂) : pySort l₁ = pySort l₂ := by
  have hperm : l₁.Perm l₂ := (List.perm_ext_iff_of_nodup h₁ h₂).mpr hmem
  have hp : (pySort l₁).Perm (pySort l₂) :=
    ((List.mergeSort_perm l₁ _).trans hperm).trans (List.mergeSort_perm l₂ _).symm
  exact List.eq_of_perm_of_sorted hp (List.sorted_mergeSort' l₁) (List.sorted_mergeSort' l₂)

/-- Claim C6: bucketing is order-independent: permuting the collection of
ResolutionRecords (and hence the accumulation order of per-path tag sets)
yields the same three sorted mandatory, optional and ambiguous lists. -/
theorem claim_C6 (recs₁ recs₂ : List ResolutionRecord) (hperm : recs₁.Perm recs₂) :
    path_types_report (paths_report recs₁) = path_types_report (paths_report recs₂) := by
  have hmem_pre : ∀ (recs : List ResolutionRecord) (P : List String → Prop)
      (_ : DecidablePred P) (p : String),
      p ∈ ((paths_report recs).filter (fun e => decide (P e.2))).map Prod.fst ↔
        ∃ ts, (paths_report recs).lookup p = some ts ∧ P ts := by
    intro recs P inst p
    rw [mem_filter_map_fst]
    constructor
    · rintro ⟨ts, hmem, hP⟩
      exact ⟨ts, alLookup_of_mem_nodup (paths_report_keys_nodup recs) hmem, hP⟩
    · rintro ⟨ts, hlook, hP⟩
      exact ⟨ts, alLookup_mem hlook, hP⟩
  have hnodup_pre : ∀ (recs : List ResolutionRecord)
      (f : String × List String → Bool),
      (((paths_report recs).filter f).map Prod.fst).Nodup := by
    intro recs f
    have hsub : List.Sublist (((paths_report recs).filter f).map Prod.fst)
        ((paths_report recs).map Prod.fst) :=
      (List.filter_sublist _).map Prod.fst
    exact (paths_report_keys_nodup recs).sublist hsub
  have hman : ∀ (recs : List ResolutionRecord) (p : String),
      p ∈ ((paths_report recs).filter (fun e => decide ("mandatory" ∈ e.2))).map
          Prod.fst ↔ contributes recs p "mandatory" := by
    intro recs p
    rw [hmem_pre recs (fun ts => "mandatory" ∈ ts) inferInstance p]
    obtain ⟨c1, c2⟩ := paths_report_lookup_char recs p
    constructor
    · rintro ⟨ts, hl, hP⟩
      exact (c1 ts hl _).mp hP
    · intro hc
      obtain ⟨ts, hts⟩ := Option.isSome_iff_exists.mp (c2.mpr ⟨_, hc⟩)
      exact ⟨ts, hts, (c1 ts hts _).mpr hc⟩
  have hopt : ∀ (recs : List ResolutionRecord) (p : String),
      p ∈ ((paths_report recs).filter
          (fun e => decide ("optional" ∈ e.2 ∧ "mandatory" ∉ e.2))).map Prod.fst ↔
        (contributes recs p "optional" ∧ ¬ contributes recs p "mandatory") := by
    intro recs p
    rw [hmem_pre recs (fun ts => "optional" ∈ ts ∧ "mandatory" ∉ ts) inferInstance p]
    obtain ⟨c1, c2⟩ := paths_report_lookup_char recs p
    constructor
    · rintro ⟨ts, hl, hPo, hPm⟩
      exact ⟨(c1 ts hl _).mp hPo, fun hc => hPm ((c1 ts hl _).mpr hc)⟩
    · rintro ⟨hco, hcm⟩
      obtain ⟨ts, hts⟩ := Option.isSome_iff_exists.mp (c2.mpr ⟨_, hco⟩)
      exact ⟨ts, hts, (c1 ts hts _).mpr hco, fun hm => hcm ((c1 ts hts _).mp hm)⟩
  have hamb : ∀ (recs : List ResolutionRecord) (p : String),
      p ∈ ((paths_report recs).filter
          (fun e => decide ("ambiguous" ∈ e.2 ∧ "mandatory" ∉ e.2))).map Prod.fst ↔
        (contributes recs p "ambiguous" ∧ ¬ contributes recs p "mandatory") := by
    intro recs p
    rw [hmem_pre recs (fun ts => "ambiguous" ∈ ts ∧ "mandatory" ∉ ts) inferInstance p]
    obtain ⟨c1, c2⟩ := paths_report_lookup_char recs p
    constructor
    · rintro ⟨ts, hl, hPo, hPm⟩
      exact ⟨(c1 ts hl _).mp hPo, fun hc => hPm ((c1 ts hl _).mpr hc)⟩
    · rintro ⟨hco, hcm⟩
      obtain ⟨ts, hts⟩ := Option.isSome_iff_exists.mp (c2.mpr ⟨_, hco⟩)
      exact ⟨ts, hts, (c1 ts hts _).mpr hco, fun hm => hcm ((c1 ts hts _).mp hm)⟩
  simp only [path_types_report]
  rw [BucketedReport.mk.injEq]
  refine ⟨?_, ?_, ?_⟩
  · refine pySort_eq_of_mem _ _ (hnodup_pre recs₁ _) (hnodup_pre recs₂ _) ?_
    intro x
    rw [hman recs₁ x, hman recs₂ x, contributes_perm hperm]
  · refine pySort_eq_of_mem _ _ (hnodup_pre recs₁ _) (hnodup_pre recs₂ _) ?_
    intro x
    rw [hopt recs₁ x, hopt recs₂ x, contributes_perm hperm, contributes_perm hperm]
  · refine pySort_eq_of_mem _ _ (hnodup_pre recs₁ _) (hnodup_pre recs₂ _) ?_
    intro x
    rw [hamb recs₁ x, hamb recs₂ x, contributes_perm hperm, contributes_perm hperm]

/-- Claim C6 witness: swapping two concrete records (one mandatory for path
a, one optional for paths a and b) leaves the three sorted buckets
unchanged. -/
theorem claim_C6_witness :
    path_types_report (paths_report
        [⟨[.pstr "a"], ["mandatory"]⟩, ⟨[.pstr "a", .pstr "b"], ["optional"]⟩]) =
      path_types_report (paths_report
        [⟨[.pstr "a", .pstr "b"], ["optional"]⟩, ⟨[.pstr "a"], ["mandatory"]⟩]) :=
  claim_C6 [⟨[.pstr "a"], ["mandatory"]⟩, ⟨[.pstr "a", .pstr "b"], ["optional"]⟩]
    [⟨[.pstr "a", .pstr "b"], ["optional"]⟩, ⟨[.pstr "a"], ["mandatory"]⟩]
    (List.Perm.swap _ _ _)

